import Mathlib

/-!
Shallow embedding of the beancount-telegram-bot ledger core
(`app/services/beancount_service.py` and the commit workflow of
`app/services/message_processor.py`), together with theorems settling the
specification claims about it.

Python strings are modelled as `List Char`; the external beancount parser,
the standard-library ISO date parser and the `difflib` similarity scorer are
abstracted as function parameters, since they are not part of this repository.
-/

namespace BeanBot

/-- Text is modelled as a list of characters (Python `str`). -/
abbrev Text := List Char

/-- The whitespace characters recognised by Python `str.strip()` and the
regex class `\s` (ASCII range). -/
def isPyWS (c : Char) : Bool :=
  c = ' ' || c = '\t' || c = '\n' || c = '\r' || c = Char.ofNat 11 || c = Char.ofNat 12

/-- Python `str.lstrip()` with no argument. -/
def lstripPy (s : Text) : Text := s.dropWhile isPyWS

/-- Python `str.rstrip()` with no argument. -/
def rstripPy (s : Text) : Text := (s.reverse.dropWhile isPyWS).reverse

/-- Python `str.strip()` with no argument. -/
def pyStrip (s : Text) : Text := rstripPy (lstripPy s)

/-- Python `str.rstrip` applied to the single character LF, as in
`existing_content.rstrip("\n")`. -/
def rstripNl (s : Text) : Text := (s.reverse.dropWhile (fun c => c = '\n')).reverse

/-- `BeancountService._ensure_trailing_newline`: append one LF unless the
content already ends with LF. -/
def ensureTrailingNewline (s : Text) : Text :=
  if s.getLast? = some '\n' then s else s ++ ['\n']

/-- Decidable list-prefix test used throughout the embedding. -/
def isPrefixList : Text → Text → Bool
  | [], _ => true
  | _ :: _, [] => false
  | a :: as, b :: bs => a = b && isPrefixList as bs

/-- Helper for `splitLines`: accumulate the current line (reversed). -/
def splitLinesAux (cur : Text) : Text → List Text
  | [] => [cur.reverse]
  | c :: rest =>
    if c = '\n' then cur.reverse :: splitLinesAux [] rest
    else splitLinesAux (c :: cur) rest

/-- Python `str.splitlines()` for LF-separated text: the empty string yields no
lines, and a trailing LF does not produce a trailing empty line. -/
def splitLines (s : Text) : List Text :=
  match s with
  | [] => []
  | _ =>
    let parts := splitLinesAux [] s
    if s.getLast? = some '\n' then parts.dropLast else parts

/-- `BeancountService._normalize_entry`: strip the entry, right-strip each of
its lines, and re-join them with LF. -/
def normalizeEntry (entry : Text) : Text :=
  List.intercalate ['\n'] ((splitLines (pyStrip entry)).map rstripPy)

/-- `BeancountService._compose_content`: with no new entries, normalize only
trailing newlines of the existing content; otherwise join the right-stripped
existing content and the right-stripped entries with blank-line separators and
guarantee a single trailing newline. -/
def composeContent (existingContent : Text) (newEntries : List Text) : Text :=
  match newEntries with
  | [] =>
    if existingContent = [] then []
    else ensureTrailingNewline (rstripNl existingContent)
  | _ =>
    let existingNormalized := rstripPy existingContent
    let newEntriesText := List.intercalate ['\n', '\n'] (newEntries.map rstripPy)
    let combined :=
      if existingNormalized = [] then newEntriesText
      else existingNormalized ++ '\n' :: '\n' :: newEntriesText
    ensureTrailingNewline (rstripPy combined)

/-- The ledger file of one user: `none` when the file does not exist,
otherwise its full content. -/
abbrev LedgerFile := Option Text

/-- The content a reader observes: `read_text()` when the file exists, the
empty string otherwise (as in `append_entries` and `_finalize_pending`). -/
def contentOf (ledger : LedgerFile) : Text := ledger.getD []

/-- `BeancountService.append_entries`: the content of the ledger file after
the write (entries that strip to nothing are discarded, the rest are
normalized, then composed onto the existing content). -/
def appendEntries (ledger : LedgerFile) (entries : List Text) : Text :=
  let cleanedEntries := (entries.filter (fun e => !(pyStrip e).isEmpty)).map normalizeEntry
  composeContent (contentOf ledger) cleanedEntries

/-- The ledger file state after `append_entries`: the file always exists
afterwards, holding `appendEntries`. -/
def appendEntriesFS (ledger : LedgerFile) (entries : List Text) : LedgerFile :=
  some (appendEntries ledger entries)

/-- `BeancountService.summarize_accounts`: the guard for a missing or
zero-byte ledger returns empty lists; the parse/realize pipeline of the
external beancount library is abstracted as `doSummary`. -/
def summarizeAccounts (doSummary : Text → List Text × List Text)
    (ledger : LedgerFile) : List Text × List Text :=
  match ledger with
  | none => ([], [])
  | some c => if c.isEmpty then ([], []) else doSummary c

/-- `BeancountService.list_accounts`: same guard, account discovery through
the external parser abstracted as `doList`. -/
def listAccounts (doList : Text → List String) (ledger : LedgerFile) : List String :=
  match ledger with
  | none => []
  | some c => if c.isEmpty then [] else doList c

/-- A beancount `Amount`: a number (exact decimal, embedded into `ℚ`) and a
currency code. -/
structure BAmount where
  number : ℚ
  currency : String
deriving DecidableEq

/-- One leg of a transaction as produced by the external loader; `units` may
be absent. -/
structure Posting where
  account : String
  units : Option BAmount
deriving DecidableEq

/-- A loaded directive. Non-transaction directives carry an empty posting
list, which `posting_exists` and the history miner skip the same way they
skip `postings = None`. Dates are modelled as ordinals. -/
structure Txn where
  date : Option Nat
  payee : Text
  narration : Text
  postings : List Posting
deriving DecidableEq

/-- The currency gate of `posting_exists`: a falsy currency filter (absent or
empty) lets every posting through, otherwise the currencies must agree. -/
def currencyOk (cur : Option String) (unitCurrency : String) : Bool :=
  match cur with
  | none => true
  | some c => if c = "" then true else unitCurrency = c

/-- One posting passes the account/currency/amount test of `posting_exists`:
exact decimal equality against the target amount or its negation. -/
def postingMatches (accountName : String) (target : ℚ) (cur : Option String)
    (p : Posting) : Bool :=
  match p.units with
  | none => false
  | some u =>
    if p.account = accountName then
      if currencyOk cur u.currency then
        decide (u.number = target) || decide (u.number = -target)
      else false
    else false

/-- The date filter of `posting_exists`: a falsy `date_str` (absent or empty)
yields no filter, otherwise the ISO parse result, with parse failures
(`except ValueError: target_date = None`) discarded. -/
def targetDateOf (parseDate : String → Option Nat) (dateStr : Option String) :
    Option Nat :=
  match dateStr with
  | none => none
  | some s => if s = "" then none else parseDate s

/-- The per-entry loop body of `posting_exists`: skip entries without
postings, skip entries whose date misses the filter, otherwise look for a
matching posting. -/
def entryMatches (accountName : String) (amount : ℚ) (cur : Option String)
    (targetDate : Option Nat) (e : Txn) : Bool :=
  if e.postings.isEmpty then false
  else
    match targetDate with
    | some d =>
      if e.date = some d then e.postings.any (postingMatches accountName amount cur)
      else false
    | none => e.postings.any (postingMatches accountName amount cur)

/-- `BeancountService.posting_exists`. The external loader is abstracted as
`parse`, and the standard-library ISO date parser (which the code wraps in a
try/except that discards failures) as `parseDate`. -/
def postingExists (parse : Text → List Txn) (parseDate : String → Option Nat)
    (ledger : LedgerFile) (accountName : String) (amount : ℚ)
    (cur : Option String) (dateStr : Option String) : Bool :=
  match ledger with
  | none => false
  | some c =>
    if c.isEmpty then false
    else (parse c).any
      (entryMatches accountName amount cur (targetDateOf parseDate dateStr))

/-- Account classification of the history miner: ledger-side accounts start
with `Assets` or `Liabilities`. -/
def isLedgerSide (account : String) : Bool :=
  isPrefixList "Assets".data account.data || isPrefixList "Liabilities".data account.data

/-- Helper for `collapseWS`: `prevWS` records whether the previous character
was whitespace (so the run is already represented by one space). -/
def collapseWSAux (prevWS : Bool) : Text → Text
  | [] => []
  | c :: rest =>
    if isPyWS c then
      if prevWS then collapseWSAux true rest
      else ' ' :: collapseWSAux true rest
    else c :: collapseWSAux false rest

/-- The regex substitution `re.sub(r"\s+", " ", s)`: replace each maximal
whitespace run by a single space. -/
def collapseWS (s : Text) : Text := collapseWSAux false s

/-- `BeancountService._normalize_description`: lowercase, collapse whitespace
runs, strip. -/
def normalizeDescription (s : Text) : Text :=
  pyStrip (collapseWS (s.map Char.toLower))

/-- `HistoryRecord` of the service, with the pair-frequency dictionary as an
insertion-ordered association list. -/
structure HistoryRecord where
  description : Text
  normalized : Text
  last_date : Option Nat
  pair_counts : List ((String × String) × Nat)
deriving DecidableEq

/-- Ordered-dictionary lookup. -/
def lookupA {κ ν : Type} [DecidableEq κ] (m : List (κ × ν)) (k : κ) : Option ν :=
  match m with
  | [] => none
  | p :: rest => if p.1 = k then some p.2 else lookupA rest k

/-- Ordered-dictionary value replacement at an existing key (keeps position,
as Python `dict` assignment does). -/
def updateA {κ ν : Type} [DecidableEq κ] (m : List (κ × ν)) (k : κ) (v : ν) :
    List (κ × ν) :=
  m.map fun p => if p.1 = k then (k, v) else p

/-- `pair_counts[pair] = pair_counts.get(pair, 0) + 1` on an insertion-ordered
dictionary. -/
def incrPair (pcs : List ((String × String) × Nat)) (p : String × String) :
    List ((String × String) × Nat) :=
  match lookupA pcs p with
  | some n => updateA pcs p (n + 1)
  | none => pcs ++ [(p, 1)]

/-- The description of a transaction in the history miner:
`payee.strip() or narration.strip()`. -/
def descriptionOf (t : Txn) : Text :=
  if pyStrip t.payee = [] then pyStrip t.narration else pyStrip t.payee

/-- The truthy posting accounts of a transaction, in posting order. -/
def accountsOf (t : Txn) : List String :=
  (t.postings.map Posting.account).filter (fun a => a != "")

/-- The representative (first ledger-side, first counterparty) account pair of
a transaction, when both classes are inhabited. -/
def reprPair (accounts : List String) : Option (String × String) :=
  match accounts.filter isLedgerSide, accounts.filter (fun a => !(isLedgerSide a)) with
  | la :: _, ca :: _ => some (la, ca)
  | _, _ => none

/-- One loop iteration of `BeancountService._build_history_records`. -/
def procEntry (records : List (Text × HistoryRecord)) (t : Txn) :
    List (Text × HistoryRecord) :=
  if t.postings.isEmpty then records
  else
    let description := descriptionOf t
    if description = [] then records
    else
      let normalized := normalizeDescription description
      let accounts := accountsOf t
      if accounts.length < 2 then records
      else
        match reprPair accounts with
        | none => records
        | some pair =>
          match lookupA records normalized with
          | none =>
            records ++ [(normalized,
              { description := description, normalized := normalized,
                last_date := t.date, pair_counts := [(pair, 1)] })]
          | some existing =>
            let pcs := incrPair existing.pair_counts pair
            let updated : HistoryRecord :=
              match t.date, existing.last_date with
              | some d, none =>
                { existing with
                    pair_counts := pcs
                    last_date := some d
                    description := description }
              | some d, some e =>
                if e ≤ d then
                  { existing with
                      pair_counts := pcs
                      last_date := some d
                      description := description }
                else { existing with pair_counts := pcs }
              | none, _ => { existing with pair_counts := pcs }
            updateA records normalized updated

/-- `BeancountService._build_history_records`, the external loader abstracted
as `parse`. -/
def buildHistoryRecords (parse : Text → List Txn) (ledger : LedgerFile) :
    List (Text × HistoryRecord) :=
  match ledger with
  | none => []
  | some c => if c.isEmpty then [] else (parse c).foldl procEntry []

/-- Python substring containment `needle in hay`. -/
def occursIn (needle hay : Text) : Bool :=
  match hay with
  | [] => needle.isEmpty
  | c :: rest => isPrefixList needle (c :: rest) || occursIn needle rest

/-- Python `sorted(l, key=key, reverse=True)`: a stable descending sort. -/
def sortDescBy {α β : Type} [LinearOrder β] (key : α → β) (l : List α) : List α :=
  List.insertionSort (fun a b => key b ≤ key a) l

/-- Modelled from the Python standard library `difflib.get_close_matches`
(not part of this repository), with the `SequenceMatcher` similarity score
abstracted as `similarity`: keep the candidates scoring at least `cutoff` and
return the best `n` of them, highest score first. -/
def getCloseMatches (similarity : Text → Text → ℚ) (word : Text)
    (possibilities : List Text) (n : Nat) (cutoff : ℚ) : List Text :=
  (sortDescBy (fun x => similarity word x)
    (possibilities.filter (fun x => cutoff ≤ similarity word x))).take n

/-- `BeancountService._match_history_keys`: exact match, else substring
matches in either direction, else fuzzy matches. -/
def matchHistoryKeys (similarity : Text → Text → ℚ) (query : Text)
    (keys : List Text) : List Text :=
  if query ∈ keys then [query]
  else
    let substringMatches := keys.filter (fun k => occursIn query k || occursIn k query)
    if !substringMatches.isEmpty then substringMatches
    else getCloseMatches similarity query keys 3 (4 / 5)

/-- `BeancountService._select_top_pair`. -/
def selectTopPair (record : HistoryRecord) (ledgerAccount : Option String) :
    Option (String × String) × Nat :=
  if record.pair_counts.isEmpty then (none, 0)
  else
    let sortedPairs := sortDescBy (fun item => item.2) record.pair_counts
    let top : Option (String × String) × Nat :=
      match sortedPairs with
      | [] => (none, 0)
      | p :: _ => (some p.1, p.2)
    match ledgerAccount with
    | none => top
    | some la =>
      if la = "" then top
      else
        match sortedPairs.filter (fun item => item.1.1 == la) with
        | [] => top
        | m :: _ => (some m.1, m.2)

/-- The single-quote character, written by code point to keep source text
plain. -/
def quoteChar : Char := Char.ofNat 39

/-- The literal part of the regex searched first by
`_format_validation_error`: `lineno`, a quote, a colon and a space. -/
def linenoPattern : Text := "lineno".data ++ [quoteChar, ':', ' ']

/-- The literal part of the second regex: `message=` followed by a quote. -/
def messagePattern : Text := "message=".data ++ [quoteChar]

/-- Match the lineno pattern anchored at this position: the literal prefix
followed by a maximal, non-empty digit run (the captured group). -/
def linenoAt (s : Text) : Option Text :=
  if isPrefixList linenoPattern s then
    let ds := (s.drop linenoPattern.length).takeWhile Char.isDigit
    if ds.isEmpty then none else some ds
  else none

/-- Match the message pattern anchored at this position: the literal prefix, a
non-empty maximal run of non-quote characters (the captured group), and a
closing quote. -/
def messageAt (s : Text) : Option Text :=
  if isPrefixList messagePattern s then
    let after := s.drop messagePattern.length
    let ms := after.takeWhile (fun c => c != quoteChar)
    if ms.isEmpty then none
    else
      match after.drop ms.length with
      | c :: _ => if c = quoteChar then some ms else none
      | [] => none
  else none

/-- `re.search`: try the anchored pattern at each position, leftmost first. -/
def searchFirst (probe : Text → Option Text) : Text → Option Text
  | [] => none
  | c :: rest =>
    match probe (c :: rest) with
    | some r => some r
    | none => searchFirst probe rest

/-- The captured line number of `_format_validation_error`, when present. -/
def findLineno (s : Text) : Option Text := searchFirst linenoAt s

/-- The captured message of `_format_validation_error`, when present. -/
def findMessage (s : Text) : Option Text := searchFirst messageAt s

/-- `MessageProcessor._format_validation_error`: `Line <n>: <message>` with
`?` for an unextractable line number and the raw error text for an
unextractable message. -/
def formatValidationError (errorText : Text) : Text :=
  let lineno := (findLineno errorText).getD ['?']
  let message := (findMessage errorText).getD errorText
  "Line ".data ++ lineno ++ ':' :: ' ' :: message

/-- The outcome of one commit attempt: the reported flag, the structured
error lines shown to the user, and the resulting ledger file state. -/
structure CommitResult where
  committed : Bool
  errorLines : List Text
  ledger : LedgerFile
deriving DecidableEq

/-- The accept branch of `MessageProcessor._finalize_pending`: read the
rollback snapshot, run `append_entries`, re-validate the file through the
external loader (abstracted as `validate`, which yields the stringified error
list), and on any error write the snapshot back and report the first five
errors formatted. -/
def commitAttempt (validate : Text → List Text) (ledger : LedgerFile)
    (entries : List Text) : CommitResult :=
  let previousContent := contentOf ledger
  let newContent := appendEntries ledger entries
  let validationErrors := validate newContent
  if validationErrors.isEmpty then
    { committed := true, errorLines := [], ledger := some newContent }
  else
    { committed := false,
      errorLines := (validationErrors.take 5).map formatValidationError,
      ledger := some previousContent }

end BeanBot

namespace BeanBot

/-! ### Helper lemmas about trailing-newline normalization -/

theorem head?_dropWhile_false {α : Type} (p : α → Bool) :
    ∀ (l : List α) (a : α), (l.dropWhile p).head? = some a → p a = false
  | [], a, h => by simp [List.dropWhile] at h
  | b :: l, a, h => by
    by_cases hb : p b
    · rw [List.dropWhile_cons, if_pos hb] at h
      exact head?_dropWhile_false p l a h
    · rw [List.dropWhile_cons, if_neg hb] at h
      simp only [List.head?_cons, Option.some.injEq] at h
      subst h
      simpa using hb

theorem getLast?_rstripNl_ne (s : Text) (a : Char)
    (h : (rstripNl s).getLast? = some a) : a ≠ '\n' := by
  unfold rstripNl at h
  rw [List.getLast?_reverse] at h
  have := head?_dropWhile_false (fun c => decide (c = '\n')) s.reverse a h
  simpa using this

theorem ensureTrailingNewline_rstripNl (s : Text) :
    ensureTrailingNewline (rstripNl s) = rstripNl s ++ ['\n'] := by
  unfold ensureTrailingNewline
  rw [if_neg]
  intro h
  exact getLast?_rstripNl_ne s '\n' h rfl

theorem rstripNl_append_newline (s : Text) : rstripNl (s ++ ['\n']) = rstripNl s := by
  unfold rstripNl
  rw [List.reverse_append]
  simp

theorem dropWhile_dropWhile_self {α : Type} (p : α → Bool) (l : List α) :
    (l.dropWhile p).dropWhile p = l.dropWhile p := by
  cases h : l.dropWhile p with
  | nil => rfl
  | cons a t =>
    have ha : p a = false := head?_dropWhile_false p l a (by rw [h]; rfl)
    rw [List.dropWhile_cons, if_neg (by simp [ha])]

theorem rstripNl_idem (s : Text) : rstripNl (rstripNl s) = rstripNl s := by
  unfold rstripNl
  rw [List.reverse_reverse, dropWhile_dropWhile_self]

/-- C6: `append_entries` with an empty entry list changes the existing ledger
content only by trailing-newline normalization: everything except the trailing
newlines is byte-identical, and for non-empty content the result is exactly
the newline-stripped content plus a single trailing newline. -/
theorem append_empty_frame (ledger : LedgerFile) :
    rstripNl (appendEntries ledger []) = rstripNl (contentOf ledger) ∧
    (contentOf ledger ≠ [] →
      appendEntries ledger [] = rstripNl (contentOf ledger) ++ ['\n']) := by
  have hEq : appendEntries ledger [] = composeContent (contentOf ledger) [] := rfl
  by_cases hc : contentOf ledger = []
  · rw [hEq, hc]
    exact ⟨rfl, fun h => absurd rfl h⟩
  · have hcompose : composeContent (contentOf ledger) [] =
        rstripNl (contentOf ledger) ++ ['\n'] := by
      unfold composeContent
      rw [if_neg hc, ensureTrailingNewline_rstripNl]
    refine ⟨?_, fun _ => by rw [hEq, hcompose]⟩
    rw [hEq, hcompose, rstripNl_append_newline, rstripNl_idem]

/-- Witness for `append_empty_frame` at a concrete non-empty ledger. -/
theorem append_empty_frame_witness :
    rstripNl (appendEntries (some ('a' :: '\n' :: '\n' :: [])) []) =
      rstripNl (contentOf (some ('a' :: '\n' :: '\n' :: []))) ∧
    appendEntries (some ('a' :: '\n' :: '\n' :: [])) [] =
      rstripNl (contentOf (some ('a' :: '\n' :: '\n' :: []))) ++ ['\n'] := by
  have h := append_empty_frame (some ('a' :: '\n' :: '\n' :: []))
  exact ⟨h.1, h.2 (by decide)⟩

/-- C7: on a non-existent or zero-byte ledger, `summarize_accounts` returns
`([], [])` and `list_accounts` returns `[]`, whatever the external parsing
pipeline would do (so no parse is attempted). -/
theorem summarize_empty_ledger (doSummary : Text → List Text × List Text)
    (doList : Text → List String) (ledger : LedgerFile)
    (h : ledger = none ∨ ledger = some []) :
    summarizeAccounts doSummary ledger = ([], []) ∧
    listAccounts doList ledger = [] := by
  rcases h with h | h <;> subst h <;>
    simp [summarizeAccounts, listAccounts]

/-- Witness for `summarize_empty_ledger` on the absent-file state. -/
theorem summarize_empty_ledger_witness :
    summarizeAccounts (fun c => ([c], [c])) none = ([], []) ∧
    listAccounts (fun _ => ["Assets:Cash"]) none = [] :=
  summarize_empty_ledger (fun c => ([c], [c])) (fun _ => ["Assets:Cash"]) none
    (Or.inl rfl)

/-- C9: appending an entry list whose members all strip to whitespace, for a
user with no ledger file, still produces an existing zero-byte ledger file;
afterwards `summarize_accounts` returns `([], [])` and `list_accounts`
returns `[]`. -/
theorem append_whitespace_only_creates_file
    (doSummary : Text → List Text × List Text) (doList : Text → List String)
    (entries : List Text) (h : ∀ e ∈ entries, pyStrip e = []) :
    appendEntriesFS none entries = some [] ∧
    summarizeAccounts doSummary (appendEntriesFS none entries) = ([], []) ∧
    listAccounts doList (appendEntriesFS none entries) = [] := by
  have hfilter : entries.filter (fun e => !(pyStrip e).isEmpty) = [] := by
    refine List.filter_eq_nil_iff.mpr fun e he => ?_
    simp [h e he]
  have happ : appendEntries none entries = [] := by
    unfold appendEntries
    rw [hfilter]
    rfl
  have hfs : appendEntriesFS none entries = some [] := by
    unfold appendEntriesFS
    rw [happ]
  refine ⟨hfs, ?_, ?_⟩ <;> rw [hfs] <;> rfl

/-- Witness for `append_whitespace_only_creates_file` on a singleton
whitespace entry. -/
theorem append_whitespace_only_creates_file_witness :
    appendEntriesFS none [[' ', '\t']] = some [] ∧
    summarizeAccounts (fun c => ([c], [c])) (appendEntriesFS none [[' ', '\t']]) = ([], []) ∧
    listAccounts (fun _ => ["Assets:Cash"]) (appendEntriesFS none [[' ', '\t']]) = [] :=
  append_whitespace_only_creates_file (fun c => ([c], [c])) (fun _ => ["Assets:Cash"])
    [[' ', '\t']] (by decide)

end BeanBot

namespace BeanBot

theorem any_congr_fn {α : Type} (l : List α) (f g : α → Bool) (h : ∀ a, f a = g a) :
    l.any f = l.any g := by
  induction l with
  | nil => rfl
  | cons a t ih => simp only [List.any_cons, h a, ih]

theorem postingMatches_neg (acc : String) (amt : ℚ) (cur : Option String)
    (p : Posting) : postingMatches acc (-amt) cur p = postingMatches acc amt cur p := by
  unfold postingMatches
  cases p.units with
  | none => rfl
  | some u =>
    dsimp only
    by_cases h1 : p.account = acc
    · rw [if_pos h1, if_pos h1]
      by_cases h2 : currencyOk cur u.currency = true
      · rw [if_pos h2, if_pos h2, neg_neg]
        exact Bool.or_comm _ _
      · rw [if_neg h2, if_neg h2]
    · rw [if_neg h1, if_neg h1]

theorem entryMatches_neg (acc : String) (amt : ℚ) (cur : Option String)
    (td : Option Nat) (e : Txn) :
    entryMatches acc (-amt) cur td e = entryMatches acc amt cur td e := by
  unfold entryMatches
  have hmatch : e.postings.any (postingMatches acc (-amt) cur) =
      e.postings.any (postingMatches acc amt cur) :=
    any_congr_fn _ _ _ (postingMatches_neg acc amt cur)
  by_cases hp : e.postings.isEmpty = true
  · rw [if_pos hp, if_pos hp]
  · rw [if_neg hp, if_neg hp]
    cases td with
    | none => exact hmatch
    | some d =>
      dsimp only
      by_cases he : e.date = some d
      · rw [if_pos he, if_pos he]
        exact hmatch
      · rw [if_neg he, if_neg he]

/-- C2: duplicate detection is symmetric in the sign of the target amount,
because each candidate quantity is compared with exact equality against the
target and its negation. -/
theorem posting_exists_sign_symmetry (parse : Text → List Txn)
    (parseDate : String → Option Nat) (ledger : LedgerFile)
    (accountName : String) (amount : ℚ) (cur : Option String)
    (dateStr : Option String) :
    postingExists parse parseDate ledger accountName amount cur dateStr =
    postingExists parse parseDate ledger accountName (-amount) cur dateStr := by
  unfold postingExists
  cases ledger with
  | none => rfl
  | some c =>
    dsimp only
    by_cases hc : c.isEmpty = true
    · rw [if_pos hc, if_pos hc]
    · rw [if_neg hc, if_neg hc]
      exact (any_congr_fn _ _ _
        (entryMatches_neg accountName amount cur (targetDateOf parseDate dateStr))).symm

/-- C10: an unparseable date filter is silently discarded — `posting_exists`
with a date string the ISO parser rejects behaves exactly like
`posting_exists` with no date filter at all. -/
theorem posting_exists_bad_date_filter (parse : Text → List Txn)
    (parseDate : String → Option Nat) (ledger : LedgerFile)
    (accountName : String) (amount : ℚ) (cur : Option String) (s : String)
    (h : parseDate s = none) :
    postingExists parse parseDate ledger accountName amount cur (some s) =
    postingExists parse parseDate ledger accountName amount cur none := by
  have htd : targetDateOf parseDate (some s) = targetDateOf parseDate none := by
    unfold targetDateOf
    dsimp only
    by_cases hs : s = ""
    · rw [if_pos hs]
    · rw [if_neg hs, h]
  unfold postingExists
  rw [htd]

/-- Witness for `posting_exists_bad_date_filter`: a dated transaction is
still found when the date filter fails to parse. -/
theorem posting_exists_bad_date_filter_witness :
    postingExists
        (fun _ => [{ date := some 10, payee := [], narration := [],
                     postings := [{ account := "Assets:Cash",
                                    units := some { number := 5, currency := "USD" } }] }])
        (fun _ => none) (some ['x']) "Assets:Cash" 5 none (some "not-a-date") =
      postingExists
        (fun _ => [{ date := some 10, payee := [], narration := [],
                     postings := [{ account := "Assets:Cash",
                                    units := some { number := 5, currency := "USD" } }] }])
        (fun _ => none) (some ['x']) "Assets:Cash" 5 none none :=
  posting_exists_bad_date_filter _ _ _ _ _ _ "not-a-date" rfl

end BeanBot

namespace BeanBot

theorem commitAttempt_failed (validate : Text → List Text) (ledger : LedgerFile)
    (entries : List Text) (h : validate (appendEntries ledger entries) ≠ []) :
    commitAttempt validate ledger entries =
      { committed := false,
        errorLines := ((validate (appendEntries ledger entries)).take 5).map
          formatValidationError,
        ledger := some (contentOf ledger) } := by
  unfold commitAttempt
  rw [if_neg]
  simpa using h

/-- C1: rollback atomicity — whenever re-validating the ledger after the
append yields a non-empty error list, the commit attempt leaves the ledger
file holding exactly the pre-append snapshot, so the observed content is
byte-for-byte the content observed before the attempt. -/
theorem rollback_atomicity (validate : Text → List Text) (ledger : LedgerFile)
    (entries : List Text)
    (h : validate (appendEntries ledger entries) ≠ []) :
    (commitAttempt validate ledger entries).ledger = some (contentOf ledger) ∧
    contentOf (commitAttempt validate ledger entries).ledger = contentOf ledger := by
  rw [commitAttempt_failed validate ledger entries h]
  exact ⟨rfl, rfl⟩

/-- Witness for `rollback_atomicity`: a concrete failing commit restores the
one-byte ledger exactly. -/
theorem rollback_atomicity_witness :
    (commitAttempt (fun _ => [['e']]) (some ['x']) [['y']]).ledger = some (contentOf (some ['x'])) ∧
    contentOf (commitAttempt (fun _ => [['e']]) (some ['x']) [['y']]).ledger =
      contentOf (some ['x']) :=
  rollback_atomicity (fun _ => [['e']]) (some ['x']) [['y']] (by decide)

/-- C8 counterexample to the claim as stated: (a) with six validation errors
the report keeps only five diagnostic lines and the sixth error (`boom`,
whose claimed diagnostic would be `Line ?: boom`) appears nowhere, so an
error IS silently dropped; (b) for an error whose line number is extractable
but whose message is not, the diagnostic is `Line 12: <raw>` rather than the
raw text with line number `?` that the claim's fallback clause requires. -/
theorem commit_error_report_counterexample :
    ((commitAttempt
        (fun _ => [['e', '1'], ['e', '2'], ['e', '3'], ['e', '4'], ['e', '5'],
          ['b', 'o', 'o', 'm']]) none []).errorLines.length = 5 ∧
      ∀ l ∈ (commitAttempt
        (fun _ => [['e', '1'], ['e', '2'], ['e', '3'], ['e', '4'], ['e', '5'],
          ['b', 'o', 'o', 'm']]) none []).errorLines, l ≠ "Line ?: boom".data) ∧
    ((commitAttempt
        (fun _ => ["lineno".data ++ quoteChar :: ": 12 oops".data]) none []).errorLines =
      ["Line 12: lineno".data ++ quoteChar :: ": 12 oops".data] ∧
      ∀ l ∈ (commitAttempt
        (fun _ => ["lineno".data ++ quoteChar :: ": 12 oops".data]) none []).errorLines,
        l ≠ "Line ?: lineno".data ++ quoteChar :: ": 12 oops".data) := by
  decide

end BeanBot

namespace BeanBot

/-- C8 (amended): when the re-validation of the appended ledger yields any
errors, the commit is reported as not committed, and the report carries one
diagnostic line for each of the FIRST FIVE validation errors in order — the
line number extracted by the lineno pattern (`?` when not extractable) and
the message extracted by the message pattern (the raw error text when not
extractable); errors beyond the fifth are omitted from the report. -/
theorem commit_error_report (validate : Text → List Text) (ledger : LedgerFile)
    (entries : List Text)
    (h : validate (appendEntries ledger entries) ≠ []) :
    (commitAttempt validate ledger entries).committed = false ∧
    (commitAttempt validate ledger entries).errorLines =
      ((validate (appendEntries ledger entries)).take 5).map
        (fun e => "Line ".data ++ ((findLineno e).getD ['?']) ++ ':' :: ' ' ::
          ((findMessage e).getD e)) := by
  rw [commitAttempt_failed validate ledger entries h]
  exact ⟨rfl, rfl⟩

/-- Witness for `commit_error_report` at one concrete failing validation. -/
theorem commit_error_report_witness :
    (commitAttempt (fun _ => [['b', 'a', 'd']]) none []).committed = false ∧
    (commitAttempt (fun _ => [['b', 'a', 'd']]) none []).errorLines =
      (((fun (_ : Text) => [['b', 'a', 'd']]) (appendEntries none [])).take 5).map
        (fun e => "Line ".data ++ ((findLineno e).getD ['?']) ++ ':' :: ' ' ::
          ((findMessage e).getD e)) :=
  commit_error_report (fun _ => [['b', 'a', 'd']]) none [] (by decide)

/-! ### Matching cascade -/

theorem mem_sortDescBy {α β : Type} [LinearOrder β] (key : α → β) (l : List α)
    (a : α) : a ∈ sortDescBy key l ↔ a ∈ l :=
  (List.perm_insertionSort _ l).mem_iff

theorem sortDescBy_sorted {α β : Type} [LinearOrder β] (key : α → β) (l : List α) :
    (sortDescBy key l).Sorted (fun a b => key b ≤ key a) := by
  haveI : IsTotal α (fun a b => key b ≤ key a) := ⟨fun a b => le_total (key b) (key a)⟩
  haveI : IsTrans α (fun a b => key b ≤ key a) :=
    ⟨fun _ _ _ hab hbc => le_trans hbc hab⟩
  exact List.sorted_insertionSort _ l

theorem getCloseMatches_spec (similarity : Text → Text → ℚ) (word : Text)
    (possibilities : List Text) (n : Nat) (cutoff : ℚ) :
    (getCloseMatches similarity word possibilities n cutoff).length ≤ n ∧
    ∀ k ∈ getCloseMatches similarity word possibilities n cutoff,
      k ∈ possibilities ∧ cutoff ≤ similarity word k := by
  constructor
  · exact List.length_take_le n _
  · intro k hk
    have h1 := List.take_subset n _ hk
    rw [mem_sortDescBy] at h1
    rw [List.mem_filter] at h1
    exact ⟨h1.1, by simpa using h1.2⟩

/-- C3: the matching tie-break cascade — an exact key match returns just the
query; otherwise, when any key relates to the query by substring containment
in either direction, exactly those keys are returned in candidate order;
otherwise at most three fuzzy matches are returned, all scoring at least the
0.8 cutoff. -/
theorem match_cascade (similarity : Text → Text → ℚ) (query : Text)
    (keys : List Text) :
    (query ∈ keys → matchHistoryKeys similarity query keys = [query]) ∧
    (query ∉ keys →
      keys.filter (fun k => occursIn query k || occursIn k query) ≠ [] →
      matchHistoryKeys similarity query keys =
        keys.filter (fun k => occursIn query k || occursIn k query)) ∧
    (query ∉ keys →
      keys.filter (fun k => occursIn query k || occursIn k query) = [] →
      (matchHistoryKeys similarity query keys).length ≤ 3 ∧
      ∀ k ∈ matchHistoryKeys similarity query keys,
        k ∈ keys ∧ 4 / 5 ≤ similarity query k) := by
  refine ⟨fun hin => ?_, fun hout hsub => ?_, fun hout hsub => ?_⟩
  · unfold matchHistoryKeys
    rw [if_pos hin]
  · unfold matchHistoryKeys
    rw [if_neg hout]
    dsimp only
    rw [if_pos]
    simpa using hsub
  · unfold matchHistoryKeys
    rw [if_neg hout]
    dsimp only
    rw [if_neg (by simpa using hsub)]
    exact getCloseMatches_spec similarity query keys 3 (4 / 5)

/-- Witness for `match_cascade`, exercising all three branches of the
cascade at concrete inputs. -/
theorem match_cascade_witness :
    matchHistoryKeys (fun _ _ => (0 : ℚ)) ['a'] [['a']] = [['a']] ∧
    matchHistoryKeys (fun _ _ => (0 : ℚ)) ['b'] [['a', 'b']] =
      [['a', 'b']].filter (fun k => occursIn ['b'] k || occursIn k ['b']) ∧
    ((matchHistoryKeys (fun _ _ => (1 : ℚ)) ['z'] [['q']]).length ≤ 3 ∧
      ∀ k ∈ matchHistoryKeys (fun _ _ => (1 : ℚ)) ['z'] [['q']],
        k ∈ [['q']] ∧ (4 : ℚ) / 5 ≤ (fun _ _ => (1 : ℚ)) ['z'] k) :=
  ⟨(match_cascade (fun _ _ => 0) ['a'] [['a']]).1 (by decide),
   (match_cascade (fun _ _ => 0) ['b'] [['a', 'b']]).2.1 (by decide) (by decide),
   (match_cascade (fun _ _ => 1) ['z'] [['q']]).2.2 (by decide) (by decide)⟩

end BeanBot

namespace BeanBot

/-! ### Top-pair selection -/

theorem selectTopPair_eq_filtered (record : HistoryRecord) (la : String)
    (hne : la ≠ "") (m : (String × String) × Nat)
    (rest : List ((String × String) × Nat))
    (hF : (sortDescBy (fun item => item.2) record.pair_counts).filter
        (fun item => item.1.1 == la) = m :: rest)
    (hnonempty : record.pair_counts ≠ []) :
    selectTopPair record (some la) = (some m.1, m.2) := by
  unfold selectTopPair
  rw [if_neg (by simpa using hnonempty)]
  dsimp only
  rw [if_neg hne, hF]

theorem selectTopPair_eq_top (record : HistoryRecord)
    (ledgerAccount : Option String) (p : (String × String) × Nat)
    (rest : List ((String × String) × Nat))
    (hS : sortDescBy (fun item => item.2) record.pair_counts = p :: rest)
    (hcond : ledgerAccount = none ∨ ledgerAccount = some "" ∨
      ∃ la, ledgerAccount = some la ∧ la ≠ "" ∧
        (sortDescBy (fun item => item.2) record.pair_counts).filter
          (fun item => item.1.1 == la) = [])
    (hnonempty : record.pair_counts ≠ []) :
    selectTopPair record ledgerAccount = (some p.1, p.2) := by
  unfold selectTopPair
  rw [if_neg (by simpa using hnonempty)]
  dsimp only
  rcases hcond with h | h | ⟨la, hla, hne, hfil⟩
  · subst h
    dsimp only
    rw [hS]
  · subst h
    dsimp only
    rw [if_pos rfl, hS]
  · subst hla
    dsimp only
    rw [if_neg hne, hfil, hS]

theorem sortDescBy_head_nonempty (record : HistoryRecord)
    (hnonempty : record.pair_counts ≠ []) :
    ∃ p rest, sortDescBy (fun item : (String × String) × Nat => item.2)
      record.pair_counts = p :: rest := by
  have hx : ∃ x, x ∈ record.pair_counts := by
    cases h0 : record.pair_counts with
    | nil => exact absurd h0 hnonempty
    | cons a t => exact ⟨a, List.mem_cons_self a t⟩
  obtain ⟨x, hx⟩ := hx
  have hxS : x ∈ sortDescBy (fun item : (String × String) × Nat => item.2)
      record.pair_counts := (mem_sortDescBy _ _ x).mpr hx
  cases hS0 : sortDescBy (fun item : (String × String) × Nat => item.2)
      record.pair_counts with
  | nil => rw [hS0] at hxS; simp at hxS
  | cons p rest => exact ⟨p, rest, rfl⟩

/-- C4: ledger-account preference in pair selection — with an empty pair table
the result is `(None, 0)`; with a non-empty preferred ledger account matched
by at least one pair, the result is a matching pair of maximal count among the
matching pairs (even when a non-matching pair has a strictly larger count);
with no usable preference or no matching pair, the result is a pair of
globally maximal count. -/
theorem select_top_pair_preference (record : HistoryRecord)
    (ledgerAccount : Option String) :
    (record.pair_counts = [] → selectTopPair record ledgerAccount = (none, 0)) ∧
    (∀ la, ledgerAccount = some la → la ≠ "" →
      (∃ pc ∈ record.pair_counts, pc.1.1 = la) →
      ∃ pc ∈ record.pair_counts, pc.1.1 = la ∧
        selectTopPair record ledgerAccount = (some pc.1, pc.2) ∧
        ∀ qd ∈ record.pair_counts, qd.1.1 = la → qd.2 ≤ pc.2) ∧
    ((ledgerAccount = none ∨ ledgerAccount = some "" ∨
        ∀ qd ∈ record.pair_counts, qd.1.1 ≠ ledgerAccount.getD "") →
      record.pair_counts ≠ [] →
      ∃ pc ∈ record.pair_counts,
        selectTopPair record ledgerAccount = (some pc.1, pc.2) ∧
        ∀ qd ∈ record.pair_counts, qd.2 ≤ pc.2) := by
  refine ⟨fun h => ?_, fun la hla hne hex => ?_, fun hcond hnonempty => ?_⟩
  · unfold selectTopPair
    rw [if_pos (by simp [h])]
  · obtain ⟨pc0, hpc0mem, hpc0acc⟩ := hex
    have hnonempty : record.pair_counts ≠ [] := by
      intro h0
      rw [h0] at hpc0mem
      simp at hpc0mem
    subst hla
    have hfilmem : pc0 ∈ (sortDescBy (fun item => item.2)
        record.pair_counts).filter (fun item => item.1.1 == la) := by
      rw [List.mem_filter]
      exact ⟨(mem_sortDescBy _ _ pc0).mpr hpc0mem, by simp [hpc0acc]⟩
    cases hF : (sortDescBy (fun item : (String × String) × Nat => item.2)
        record.pair_counts).filter (fun item => item.1.1 == la) with
    | nil => rw [hF] at hfilmem; simp at hfilmem
    | cons m rest =>
      have hmmem : m ∈ (sortDescBy (fun item : (String × String) × Nat => item.2)
          record.pair_counts).filter (fun item => item.1.1 == la) := by
        rw [hF]
        exact List.mem_cons_self m rest
      rw [List.mem_filter] at hmmem
      refine ⟨m, (mem_sortDescBy _ _ m).mp hmmem.1, by simpa using hmmem.2,
        selectTopPair_eq_filtered record la hne m rest hF hnonempty, ?_⟩
      intro qd hqd hacc
      have hqdF : qd ∈ (sortDescBy (fun item : (String × String) × Nat => item.2)
          record.pair_counts).filter (fun item => item.1.1 == la) := by
        rw [List.mem_filter]
        exact ⟨(mem_sortDescBy _ _ qd).mpr hqd, by simp [hacc]⟩
      have hsorted : ((sortDescBy (fun item : (String × String) × Nat => item.2)
          record.pair_counts).filter (fun item => item.1.1 == la)).Sorted
          (fun a b => b.2 ≤ a.2) :=
        (sortDescBy_sorted _ record.pair_counts).filter _
      rw [hF] at hqdF hsorted
      rcases List.mem_cons.mp hqdF with h | h
      · rw [h]
      · exact (List.sorted_cons.mp hsorted).1 qd h
  · obtain ⟨p, rest, hS⟩ := sortDescBy_head_nonempty record hnonempty
    have hpmem : p ∈ record.pair_counts := by
      refine (@mem_sortDescBy ((String × String) × Nat) ℕ _
        (fun item => item.2) record.pair_counts p).mp ?_
      rw [hS]
      exact List.mem_cons_self p rest
    have hmax : ∀ qd ∈ record.pair_counts, qd.2 ≤ p.2 := by
      intro qd hqd
      have hqdS : qd ∈ sortDescBy (fun item : (String × String) × Nat => item.2)
          record.pair_counts := (mem_sortDescBy _ _ qd).mpr hqd
      have hsorted := @sortDescBy_sorted ((String × String) × Nat) ℕ _
        (fun item => item.2) record.pair_counts
      rw [hS] at hqdS hsorted
      rcases List.mem_cons.mp hqdS with h | h
      · rw [h]
      · exact (List.sorted_cons.mp hsorted).1 qd h
    refine ⟨p, hpmem, ?_, hmax⟩
    cases hacc : ledgerAccount with
    | none => exact selectTopPair_eq_top record none p rest hS (Or.inl rfl) hnonempty
    | some la =>
      by_cases hla : la = ""
      · subst hla
        exact selectTopPair_eq_top record (some "") p rest hS (Or.inr (Or.inl rfl))
          hnonempty
      · refine selectTopPair_eq_top record (some la) p rest hS
          (Or.inr (Or.inr ⟨la, rfl, hla, ?_⟩)) hnonempty
        refine List.filter_eq_nil_iff.mpr fun item hitem => ?_
        have : item ∈ record.pair_counts := (mem_sortDescBy _ _ item).mp hitem
        rcases hcond with h | h | h
        · rw [hacc] at h; exact absurd h (by simp)
        · rw [hacc] at h
          simp only [Option.some.injEq] at h
          exact absurd h hla
        · rw [hacc] at h
          have := h item this
          simpa using this

/-- Witness for `select_top_pair_preference`: the spec's example record, where
the preferred-account pair with count 2 beats the globally larger count 5. -/
theorem select_top_pair_preference_witness :
    ∃ pc ∈ ([(("Assets:Cash", "Expenses:Food"), 5),
        (("Assets:Bank:Checking", "Expenses:Food"), 2)] :
        List ((String × String) × Nat)),
      pc.1.1 = "Assets:Bank:Checking" ∧
      selectTopPair
        { description := ['d'], normalized := ['d'], last_date := some 3,
          pair_counts := [(("Assets:Cash", "Expenses:Food"), 5),
            (("Assets:Bank:Checking", "Expenses:Food"), 2)] }
        (some "Assets:Bank:Checking") = (some pc.1, pc.2) ∧
      ∀ qd ∈ ([(("Assets:Cash", "Expenses:Food"), 5),
          (("Assets:Bank:Checking", "Expenses:Food"), 2)] :
          List ((String × String) × Nat)),
        qd.1.1 = "Assets:Bank:Checking" → qd.2 ≤ pc.2 :=
  (select_top_pair_preference
    { description := ['d'], normalized := ['d'], last_date := some 3,
      pair_counts := [(("Assets:Cash", "Expenses:Food"), 5),
        (("Assets:Bank:Checking", "Expenses:Food"), 2)] }
    (some "Assets:Bank:Checking")).2.1 "Assets:Bank:Checking" rfl (by decide)
    (by decide)

end BeanBot

namespace BeanBot

/-- C5: history pair counting and recency — for a ledger parsing to two
transactions that share a normalized description, each with first ledger-side
account `Assets:Bank:Checking` and first counterparty account
`Expenses:Food`, `history_records` maps that description to a record whose
pair table gives the pair the count 2 and whose `last_date` is the later of
the two transaction dates. -/
theorem history_pair_counting (parse : Text → List Txn) (c : Text)
    (t1 t2 : Txn) (n1 n2 : Nat)
    (hc : ¬c.isEmpty = true)
    (hparse : parse c = [t1, t2])
    (hp1 : ¬t1.postings.isEmpty = true) (hp2 : ¬t2.postings.isEmpty = true)
    (hd1 : descriptionOf t1 ≠ []) (hd2 : descriptionOf t2 ≠ [])
    (hkey : normalizeDescription (descriptionOf t2) =
      normalizeDescription (descriptionOf t1))
    (hlen1 : ¬(accountsOf t1).length < 2) (hlen2 : ¬(accountsOf t2).length < 2)
    (hrp1 : reprPair (accountsOf t1) = some ("Assets:Bank:Checking", "Expenses:Food"))
    (hrp2 : reprPair (accountsOf t2) = some ("Assets:Bank:Checking", "Expenses:Food"))
    (hdate1 : t1.date = some n1) (hdate2 : t2.date = some n2) :
    ∃ rec : HistoryRecord,
      lookupA (buildHistoryRecords parse (some c))
        (normalizeDescription (descriptionOf t1)) = some rec ∧
      lookupA rec.pair_counts ("Assets:Bank:Checking", "Expenses:Food") = some 2 ∧
      rec.last_date = some (max n1 n2) := by
  have hbuild : buildHistoryRecords parse (some c) =
      procEntry (procEntry [] t1) t2 := by
    unfold buildHistoryRecords
    dsimp only
    rw [if_neg hc, hparse]
    rfl
  have hstep1 : procEntry [] t1 =
      [(normalizeDescription (descriptionOf t1),
        { description := descriptionOf t1,
          normalized := normalizeDescription (descriptionOf t1),
          last_date := some n1,
          pair_counts := [(("Assets:Bank:Checking", "Expenses:Food"), 1)] })] := by
    unfold procEntry
    rw [if_neg hp1]
    dsimp only
    rw [if_neg hd1, if_neg hlen1, hrp1, hdate1]
    rfl
  by_cases hle : n1 ≤ n2
  · have hstep2 : procEntry
        [(normalizeDescription (descriptionOf t1),
          { description := descriptionOf t1,
            normalized := normalizeDescription (descriptionOf t1),
            last_date := some n1,
            pair_counts := [(("Assets:Bank:Checking", "Expenses:Food"), 1)] })] t2 =
        [(normalizeDescription (descriptionOf t1),
          { description := descriptionOf t2,
            normalized := normalizeDescription (descriptionOf t1),
            last_date := some n2,
            pair_counts := [(("Assets:Bank:Checking", "Expenses:Food"), 2)] })] := by
      unfold procEntry
      rw [if_neg hp2]
      dsimp only
      rw [if_neg hd2, if_neg hlen2, hrp2, hkey, hdate2]
      dsimp only [lookupA]
      rw [if_pos rfl]
      dsimp only [incrPair, lookupA, updateA, List.map]
      simp [hle]
    rw [hbuild, hstep1, hstep2]
    refine ⟨⟨descriptionOf t2, normalizeDescription (descriptionOf t1), some n2,
      [(("Assets:Bank:Checking", "Expenses:Food"), 2)]⟩, ?_, ?_, ?_⟩
    · simp [lookupA]
    · simp [lookupA]
    · rw [Nat.max_eq_right hle]
  · have hstep2 : procEntry
        [(normalizeDescription (descriptionOf t1),
          { description := descriptionOf t1,
            normalized := normalizeDescription (descriptionOf t1),
            last_date := some n1,
            pair_counts := [(("Assets:Bank:Checking", "Expenses:Food"), 1)] })] t2 =
        [(normalizeDescription (descriptionOf t1),
          { description := descriptionOf t1,
            normalized := normalizeDescription (descriptionOf t1),
            last_date := some n1,
            pair_counts := [(("Assets:Bank:Checking", "Expenses:Food"), 2)] })] := by
      unfold procEntry
      rw [if_neg hp2]
      dsimp only
      rw [if_neg hd2, if_neg hlen2, hrp2, hkey, hdate2]
      dsimp only [lookupA]
      rw [if_pos rfl]
      dsimp only [incrPair, lookupA, updateA, List.map]
      simp [hle]
    rw [hbuild, hstep1, hstep2]
    refine ⟨⟨descriptionOf t1, normalizeDescription (descriptionOf t1), some n1,
      [(("Assets:Bank:Checking", "Expenses:Food"), 2)]⟩, ?_, ?_, ?_⟩
    · simp [lookupA]
    · simp [lookupA]
    · rw [Nat.max_eq_left (Nat.le_of_not_lt (fun hlt => hle (Nat.le_of_lt hlt)))]

end BeanBot

namespace BeanBot

/-- Concrete transaction for the history-counting witness: a coffee-shop
purchase on day 10. -/
def coffeeTxn1 : Txn :=
  ⟨some 10, "Coffee Shop".data, [],
    [⟨"Assets:Bank:Checking", some ⟨-5, "USD"⟩⟩, ⟨"Expenses:Food", some ⟨5, "USD"⟩⟩]⟩

/-- Concrete transaction for the history-counting witness: a second
coffee-shop purchase (same description up to normalization) on day 7. -/
def coffeeTxn2 : Txn :=
  ⟨some 7, " coffee  shop".data, [],
    [⟨"Assets:Bank:Checking", some ⟨-7, "USD"⟩⟩, ⟨"Expenses:Food", some ⟨7, "USD"⟩⟩]⟩

/-- Witness for `history_pair_counting` on two concrete coffee-shop
transactions. -/
theorem history_pair_counting_witness :
    ∃ rec : HistoryRecord,
      lookupA (buildHistoryRecords (fun _ => [coffeeTxn1, coffeeTxn2]) (some ['x']))
        (normalizeDescription (descriptionOf coffeeTxn1)) = some rec ∧
      lookupA rec.pair_counts ("Assets:Bank:Checking", "Expenses:Food") = some 2 ∧
      rec.last_date = some (max 10 7) :=
  history_pair_counting (fun _ => [coffeeTxn1, coffeeTxn2]) ['x'] coffeeTxn1 coffeeTxn2
    10 7 (by decide) rfl (by decide) (by decide) (by decide) (by decide) (by decide)
    (by decide) (by decide) (by decide) (by decide) rfl rfl

end BeanBot
